import Mathlib

/-!
Shallow embedding of the `hobsons` schema-registry library
(`src/internals.ts`, current revision): zod schema values are modelled as a
small AST, a zod object shape as an association list from field keys to
sub-schemas, and the `SchemaRepo` / `Registry` classes as explicit state
passing.  Thrown errors are modelled as an `Option RegError` component of
each operation's result, so that a throw after a partial mutation would be
visible in the returned state.
-/

set_option autoImplicit false

namespace Hobsons

/-- A JavaScript value usable as a zod literal in this library: strings,
numbers, booleans, or `undefined`. -/
inductive LitVal where
  | str (s : String)
  | num (n : Int)
  | bool (b : Bool)
  | undef
deriving DecidableEq, Repr

/-- JavaScript truthiness of a literal value (used by `Registry.register`,
which tests `!schema.shape.type._def.value`). -/
def truthy : LitVal → Bool
  | .str s => !(s == "")
  | .num n => !(n == 0)
  | .bool b => b
  | .undef => false

/-- JavaScript string coercion of a literal value, as performed when the
value is used as a `Record` key in `SchemaRepo.add`. -/
def toKeyString : LitVal → String
  | .str s => s
  | .num n => toString n
  | .bool b => if b then "true" else "false"
  | .undef => "undefined"

/-- The fragment of zod schema values the library manipulates:
`z.literal`, primitive types, `.optional()` / `.default()` wrappers and
nested `z.object` shapes. -/
inductive ZodType where
  | ZodLiteral (v : LitVal)
  | ZodString
  | ZodNumber
  | ZodBoolean
  | ZodOptional (inner : ZodType)
  | ZodDefault (inner : ZodType)
  | ZodObject (shape : List (String × ZodType))
deriving Repr

/-- The `_def.typeName` tag of a zod schema value (used by the
registration precondition check). -/
def typeName : ZodType → String
  | .ZodLiteral _ => "ZodLiteral"
  | .ZodString => "ZodString"
  | .ZodNumber => "ZodNumber"
  | .ZodBoolean => "ZodBoolean"
  | .ZodOptional _ => "ZodOptional"
  | .ZodDefault _ => "ZodDefault"
  | .ZodObject _ => "ZodObject"

/-- The shape of a `z.object(...)` schema: field keys in insertion order,
each with its sub-schema.  This is the model of `z.AnyZodObject`. -/
abbrev ZodShape := List (String × ZodType)

/-- Key lookup in an insertion-ordered record (JavaScript property
access `record[k]`). -/
def lookupAssoc {α : Type} (k : String) : List (String × α) → Option α
  | [] => none
  | (k2, v) :: rest => if k2 = k then some v else lookupAssoc k rest

/-- Key assignment in an insertion-ordered record (JavaScript
`record[k] = v`): an existing key keeps its position, a new key is
appended. -/
def insertAssoc {α : Type} (k : String) (v : α) : List (String × α) → List (String × α)
  | [] => [(k, v)]
  | (k2, v2) :: rest => if k2 = k then (k, v) :: rest else (k2, v2) :: insertAssoc k v rest

/-- `SchemaFilter` from `internals.ts`: a predicate over
`(fieldKey, fieldSchema)`; `true` means the field is blacklisted. -/
abbrev SchemaFilter := String → ZodType → Bool

/-- The errors the core can throw, named as in the specification:
the registration precondition failure and the `< 2` arity failure of
`union` / `enum`. -/
inductive RegError where
  | MissingDiscriminator
  | InsufficientSchemas
deriving DecidableEq, Repr

/-- `removeDefaultsAndOptionals` from `internals.ts`: the while loop
repeatedly unwraps a `ZodDefault` or `ZodOptional` head until the head is
neither, and returns the remaining type unchanged. -/
def removeDefaultsAndOptionals : ZodType → ZodType
  | .ZodDefault inner => removeDefaultsAndOptionals inner
  | .ZodOptional inner => removeDefaultsAndOptionals inner
  | t => t

/-- `applyFilter` from `internals.ts`: `schema.pick({type: true})` keeps
the `type` entry, `schema.omit({type: true})` drops it; the remaining
entries are kept exactly when no blacklist predicate flags them, each
survivor is passed through `removeDefaultsAndOptionals`, and
`z.object(filteredShape).merge(typeField)` appends the untouched `type`
entry after the survivors. -/
def applyFilter (schema : ZodShape) (blacklistedFields : List SchemaFilter) : ZodShape :=
  (((schema.filter (fun p => !(p.1 == "type"))).filter
      (fun p => !(blacklistedFields.any (fun f => f p.1 p.2)))).map
      (fun p => (p.1, removeDefaultsAndOptionals p.2)))
    ++ schema.filter (fun p => p.1 == "type")

/-- The keyed store of one `SchemaRepo` instance: discriminator key
(string-coerced) to stored object shape, in assignment (insertion)
order.  Iteration over the store (`Object.keys` / `Object.values`)
reorders integer-like keys — see `jsOwnKeysOrder`. -/
structure SchemaRepo where
  entries : List (String × ZodShape)

/-- The numeric value of a decimal digit string. -/
def digitsToNat (cs : List Char) : Nat :=
  cs.foldl (fun n c => n * 10 + (c.toNat - 48)) 0

/-- ECMAScript array-index test for a record key: the canonical decimal
form of an integer below 2^32 - 1.  Such keys iterate before all other
keys, in ascending numeric order. -/
def isArrayIndexKey (s : String) : Bool :=
  !s.data.isEmpty && s.data.all (fun c => c.isDigit) &&
  (!(s.data.headD (Char.ofNat 48) == Char.ofNat 48) || s.data.length == 1) &&
  digitsToNat s.data < 4294967295

/-- Insert an entry into a list sorted by ascending numeric key value. -/
def insertByKeyNat (p : String × ZodShape) :
    List (String × ZodShape) → List (String × ZodShape)
  | [] => [p]
  | q :: rest =>
      if digitsToNat p.1.data < digitsToNat q.1.data then p :: q :: rest
      else q :: insertByKeyNat p rest

/-- Sort entries by ascending numeric key value (insertion sort; keys are
unique, so any comparison sort yields the same order). -/
def sortByKeyNat : List (String × ZodShape) → List (String × ZodShape)
  | [] => []
  | p :: rest => insertByKeyNat p (sortByKeyNat rest)

/-- The ECMAScript own-property order of a record's entries, as produced
by `Object.keys` / `Object.values`: array-index keys in ascending numeric
order first, then the remaining keys in insertion order. -/
def jsOwnKeysOrder (l : List (String × ZodShape)) : List (String × ZodShape) :=
  sortByKeyNat (l.filter (fun p => isArrayIndexKey p.1))
    ++ l.filter (fun p => !(isArrayIndexKey p.1))

/-- The `schemas` getter: `Object.values(this.#schemas)`, a fresh array of
the stored shapes in the record's own-property order. -/
def SchemaRepo.schemas (repo : SchemaRepo) : List ZodShape :=
  (jsOwnKeysOrder repo.entries).map Prod.snd

/-- `SchemaRepo.add`: requires the shape's `type` field to be a literal
whose `_def.value` is not `undefined`, then assigns
`this.#schemas[value] = schema` (the key is the string coercion of the
literal value).  On failure the store is unchanged and an error is
reported. -/
def SchemaRepo.add (repo : SchemaRepo) (schema : ZodShape) : SchemaRepo × Option RegError :=
  match lookupAssoc "type" schema with
  | some (.ZodLiteral v) =>
      if v = .undef then (repo, some .MissingDiscriminator)
      else (⟨insertAssoc (toKeyString v) schema repo.entries⟩, none)
  | _ => (repo, some .MissingDiscriminator)

/-- The `enum` getter: `Object.keys(this.#schemas)` (own-property order),
throwing when fewer than 2 keys exist, otherwise `z.enum(keys)`. -/
def SchemaRepo.enum (repo : SchemaRepo) : Except RegError (List String) :=
  let keys := (jsOwnKeysOrder repo.entries).map Prod.fst
  if keys.length < 2 then .error .InsufficientSchemas
  else .ok keys

/-- The `union` getter (`#_constructUnion`):
`Object.values(this.#schemas)` (own-property order), throwing when fewer
than 2 values exist, otherwise `z.discriminatedUnion("type", values)` —
modelled by the list of variant shapes. -/
def SchemaRepo.union (repo : SchemaRepo) : Except RegError (List ZodShape) :=
  let schemas := (jsOwnKeysOrder repo.entries).map Prod.snd
  if schemas.length < 2 then .error .InsufficientSchemas
  else .ok schemas

/-- The `factory` method: `this.#schemas[name] ?? null`. -/
def SchemaRepo.factory (repo : SchemaRepo) (name : String) : Option ZodShape :=
  lookupAssoc name repo.entries

/-- The `Registry` class: the construction-time global blacklist and the
two repositories. -/
structure Registry where
  globalBlacklist : List SchemaFilter
  original : SchemaRepo
  llm : SchemaRepo

/-- `createRegistry` / `new Registry(options)`: both repositories start
empty. -/
def createRegistry (globalBlacklist : List SchemaFilter) : Registry :=
  { globalBlacklist := globalBlacklist, original := ⟨[]⟩, llm := ⟨[]⟩ }

/-- The precondition check at the top of `Registry.register`:
`schema.shape.type` exists, its `_def.typeName` is `"ZodLiteral"`, and its
`_def.value` is truthy. -/
def hasValidDiscriminator (schema : ZodShape) : Bool :=
  match lookupAssoc "type" schema with
  | some t => typeName t == "ZodLiteral" &&
      (match t with
       | .ZodLiteral v => truthy v
       | _ => false)
  | none => false

/-- `Registry.register`: validate the discriminator (throwing before any
mutation), add the schema to the original repo, and unless `ignoreLLM` add
`applyFilter(schema, globalBlacklist ++ localBlacklist)` to the llm
repo. -/
def Registry.register (r : Registry) (schema : ZodShape)
    (localBlacklist : List SchemaFilter) (ignoreLLM : Bool) :
    Registry × Option RegError :=
  if hasValidDiscriminator schema then
    let res1 := r.original.add schema
    match res1.2 with
    | some err => ({ r with original := res1.1 }, some err)
    | none =>
      if ignoreLLM then ({ r with original := res1.1 }, none)
      else
        let res2 := r.llm.add (applyFilter schema (r.globalBlacklist ++ localBlacklist))
        ({ r with original := res1.1, llm := res2.1 }, res2.2)
  else (r, some .MissingDiscriminator)

mutual

/-- Does a schema value contain an optional/default wrapper anywhere,
nested object fields included? -/
def hasOptionalOrDefault : ZodType → Bool
  | .ZodOptional _ => true
  | .ZodDefault _ => true
  | .ZodObject shape => shapeHasOptionalOrDefault shape
  | _ => false

/-- Does any field of a shape contain an optional/default wrapper
anywhere? -/
def shapeHasOptionalOrDefault : List (String × ZodType) → Bool
  | [] => false
  | (_, t) :: rest => hasOptionalOrDefault t || shapeHasOptionalOrDefault rest

end

/-- A tiny heap of allocated arrays, used to state the aliasing behavior
of the `schemas` getter: an address is an index into the allocation
list. -/
structure Heap where
  arrays : List (List ZodShape)

/-- Index lookup in the allocation list. -/
def listGetOpt {α : Type} : List α → Nat → Option α
  | [], _ => none
  | x :: _, 0 => some x
  | _ :: rest, n+1 => listGetOpt rest n

/-- Read the array stored at an address (an unallocated address reads as
empty). -/
def Heap.get (h : Heap) (a : Nat) : List ZodShape :=
  (listGetOpt h.arrays a).getD []

/-- Overwrite the array stored at an address (JavaScript mutation of that
array object). -/
def Heap.set (h : Heap) (a : Nat) (xs : List ZodShape) : Heap :=
  ⟨h.arrays.set a xs⟩

/-- The `schemas` getter with its allocation made explicit:
`Object.values(this.#schemas)` builds a fresh array holding the stored
shapes in the record's own-property order; the repository value returned
alongside is the repository state after the read. -/
def SchemaRepo.schemasRead (repo : SchemaRepo) (h : Heap) :
    SchemaRepo × Nat × Heap :=
  (repo, h.arrays.length, ⟨h.arrays ++ [repo.schemas]⟩)

/-! ### Association-list lemmas -/

theorem lookupAssoc_insertAssoc_self {α : Type} (k : String) (v : α)
    (l : List (String × α)) : lookupAssoc k (insertAssoc k v l) = some v := by
  induction l with
  | nil => simp [insertAssoc, lookupAssoc]
  | cons p rest ih =>
    obtain ⟨k2, v2⟩ := p
    by_cases h : k2 = k
    · simp [insertAssoc, h, lookupAssoc]
    · simp [insertAssoc, h, lookupAssoc, ih]

theorem lookupAssoc_insertAssoc_ne {α : Type} {k k2 : String} (v : α)
    (l : List (String × α)) (hne : k2 ≠ k) :
    lookupAssoc k2 (insertAssoc k v l) = lookupAssoc k2 l := by
  have hne2 : k ≠ k2 := fun h => hne h.symm
  induction l with
  | nil => simp [insertAssoc, lookupAssoc, hne2]
  | cons p rest ih =>
    obtain ⟨k3, v3⟩ := p
    by_cases h : k3 = k
    · subst h
      simp [insertAssoc, lookupAssoc, hne2]
    · simp only [insertAssoc, if_neg h, lookupAssoc]
      by_cases h2 : k3 = k2
      · simp [h2]
      · simp [h2, ih]

theorem mem_keys_insertAssoc {α : Type} {a k : String} {v : α}
    {l : List (String × α)} :
    a ∈ (insertAssoc k v l).map Prod.fst ↔ a = k ∨ a ∈ l.map Prod.fst := by
  induction l with
  | nil => simp [insertAssoc]
  | cons p rest ih =>
    obtain ⟨k2, v2⟩ := p
    by_cases h : k2 = k
    · subst h
      simp [insertAssoc]
    · simp only [insertAssoc, if_neg h, List.map_cons, List.mem_cons, ih]
      tauto

theorem nodup_keys_insertAssoc {α : Type} {k : String} {v : α}
    {l : List (String × α)} (hnd : (l.map Prod.fst).Nodup) :
    ((insertAssoc k v l).map Prod.fst).Nodup := by
  induction l with
  | nil => simp [insertAssoc]
  | cons p rest ih =>
    obtain ⟨k2, v2⟩ := p
    simp only [List.map_cons, List.nodup_cons] at hnd
    by_cases h : k2 = k
    · subst h
      simpa [insertAssoc] using hnd
    · simp only [insertAssoc, if_neg h, List.map_cons, List.nodup_cons]
      refine ⟨fun hmem => ?_, ih hnd.2⟩
      rcases mem_keys_insertAssoc.mp hmem with h2 | h2
      · exact h h2
      · exact hnd.1 h2

theorem count_keys_insertAssoc {α : Type} {k : String} {v : α}
    {l : List (String × α)} (hnd : (l.map Prod.fst).Nodup) :
    ((insertAssoc k v l).map Prod.fst).count k = 1 := by
  induction l with
  | nil => simp [insertAssoc]
  | cons p rest ih =>
    obtain ⟨k2, v2⟩ := p
    simp only [List.map_cons, List.nodup_cons] at hnd
    by_cases h : k2 = k
    · subst h
      have : (rest.map Prod.fst).count k2 = 0 :=
        List.count_eq_zero.mpr hnd.1
      simp [insertAssoc, List.count_cons, this]
    · have hks : k ≠ k2 := fun h3 => h h3.symm
      simp [insertAssoc, h, List.count_cons, ih hnd.2, hks]

theorem length_insertAssoc {α : Type} (k : String) (v : α)
    (l : List (String × α)) :
    (insertAssoc k v l).length =
      if k ∈ l.map Prod.fst then l.length else l.length + 1 := by
  induction l with
  | nil => simp [insertAssoc]
  | cons p rest ih =>
    obtain ⟨k2, v2⟩ := p
    by_cases h : k2 = k
    · subst h
      simp [insertAssoc]
    · simp only [insertAssoc, if_neg h, List.length_cons, ih, List.map_cons,
        List.mem_cons]
      have hks : k ≠ k2 := fun h3 => h h3.symm
      by_cases h2 : k ∈ rest.map Prod.fst
      · simp [h2]
      · simp [h2, hks]

theorem assoc_value_eq_of_nodup {α : Type} {k : String} {v1 v2 : α}
    {l : List (String × α)} (hnd : (l.map Prod.fst).Nodup)
    (h1 : (k, v1) ∈ l) (h2 : (k, v2) ∈ l) : v1 = v2 := by
  induction l with
  | nil => cases h1
  | cons p rest ih =>
    simp only [List.map_cons, List.nodup_cons] at hnd
    rcases List.mem_cons.mp h1 with e1 | m1 <;>
      rcases List.mem_cons.mp h2 with e2 | m2
    · rw [← e1] at e2
      exact (Prod.mk.injEq _ _ _ _ ▸ e2.symm).2
    · exact absurd (List.mem_map.mpr ⟨(k, v2), m2, by rw [← e1]⟩) hnd.1
    · exact absurd (List.mem_map.mpr ⟨(k, v1), m1, by rw [← e2]⟩) hnd.1
    · exact ih hnd.2 m1 m2

theorem lookupAssoc_eq_none {α : Type} {k : String} {l : List (String × α)}
    (h : ∀ p ∈ l, p.1 ≠ k) : lookupAssoc k l = none := by
  induction l with
  | nil => rfl
  | cons p rest ih =>
    obtain ⟨k2, v2⟩ := p
    have h1 : k2 ≠ k := h (k2, v2) (List.mem_cons_self _ _)
    simp only [lookupAssoc, if_neg h1]
    exact ih fun q hq => h q (List.mem_cons_of_mem _ hq)

theorem lookupAssoc_append_left_none {α : Type} {k : String}
    {a b : List (String × α)} (h : lookupAssoc k a = none) :
    lookupAssoc k (a ++ b) = lookupAssoc k b := by
  induction a with
  | nil => rfl
  | cons p rest ih =>
    obtain ⟨k2, v2⟩ := p
    by_cases h2 : k2 = k
    · simp [lookupAssoc, h2] at h
    · simp only [lookupAssoc, if_neg h2] at h ⊢
      exact ih h

theorem lookupAssoc_filter_key {α : Type} (k : String) (l : List (String × α)) :
    lookupAssoc k (l.filter (fun p => p.1 == k)) = lookupAssoc k l := by
  induction l with
  | nil => rfl
  | cons p rest ih =>
    obtain ⟨k2, v2⟩ := p
    by_cases h : k2 = k
    · simp [List.filter_cons, h, lookupAssoc]
    · simp [List.filter_cons, h, lookupAssoc, ih]

/-! ### Lemmas about the own-property iteration order -/

theorem length_insertByKeyNat (p : String × ZodShape)
    (l : List (String × ZodShape)) :
    (insertByKeyNat p l).length = l.length + 1 := by
  induction l with
  | nil => rfl
  | cons q rest ih =>
    by_cases h : digitsToNat p.1.data < digitsToNat q.1.data
    · simp [insertByKeyNat, h]
    · simp [insertByKeyNat, h, ih]

theorem length_sortByKeyNat (l : List (String × ZodShape)) :
    (sortByKeyNat l).length = l.length := by
  induction l with
  | nil => rfl
  | cons p rest ih => simp [sortByKeyNat, length_insertByKeyNat, ih]

theorem length_filter_partition {α : Type} (P : α → Bool) (l : List α) :
    (l.filter P).length + (l.filter (fun a => !(P a))).length = l.length := by
  induction l with
  | nil => rfl
  | cons x rest ih =>
    by_cases h : P x <;> simp [List.filter_cons, h] <;> omega

theorem length_jsOwnKeysOrder (l : List (String × ZodShape)) :
    (jsOwnKeysOrder l).length = l.length := by
  rw [jsOwnKeysOrder, List.length_append, length_sortByKeyNat,
    length_filter_partition]

theorem jsOwnKeysOrder_eq_self {l : List (String × ZodShape)}
    (h : ∀ p ∈ l, isArrayIndexKey p.1 = false) : jsOwnKeysOrder l = l := by
  rw [jsOwnKeysOrder]
  have h1 : l.filter (fun p => isArrayIndexKey p.1) = [] := by
    apply List.filter_eq_nil_iff.mpr
    intro p hp
    simp [h p hp]
  have h2 : l.filter (fun p => !(isArrayIndexKey p.1)) = l := by
    apply List.filter_eq_self.mpr
    intro p hp
    simp [h p hp]
  rw [h1, h2]
  rfl

/-! ### Lemmas about the filter pipeline -/

theorem lookupAssoc_type_applyFilter (schema : ZodShape)
    (preds : List SchemaFilter) :
    lookupAssoc "type" (applyFilter schema preds) = lookupAssoc "type" schema := by
  unfold applyFilter
  rw [lookupAssoc_append_left_none, lookupAssoc_filter_key]
  apply lookupAssoc_eq_none
  intro p hp
  simp only [List.mem_map, List.mem_filter] at hp
  obtain ⟨q, ⟨⟨_, hq2⟩, _⟩, he⟩ := hp
  rw [← he]
  simpa using hq2

theorem removeDefaultsAndOptionals_not_wrapped : ∀ t : ZodType,
    typeName (removeDefaultsAndOptionals t) ≠ "ZodOptional" ∧
    typeName (removeDefaultsAndOptionals t) ≠ "ZodDefault"
  | .ZodOptional inner => by
      simpa [removeDefaultsAndOptionals] using
        removeDefaultsAndOptionals_not_wrapped inner
  | .ZodDefault inner => by
      simpa [removeDefaultsAndOptionals] using
        removeDefaultsAndOptionals_not_wrapped inner
  | .ZodLiteral _ => by simp [removeDefaultsAndOptionals, typeName]
  | .ZodString => by simp [removeDefaultsAndOptionals, typeName]
  | .ZodNumber => by simp [removeDefaultsAndOptionals, typeName]
  | .ZodBoolean => by simp [removeDefaultsAndOptionals, typeName]
  | .ZodObject _ => by simp [removeDefaultsAndOptionals, typeName]

theorem removeDefaultsAndOptionals_eq_self {t : ZodType}
    (h1 : typeName t ≠ "ZodOptional") (h2 : typeName t ≠ "ZodDefault") :
    removeDefaultsAndOptionals t = t := by
  cases t with
  | ZodOptional inner => exact absurd rfl h1
  | ZodDefault inner => exact absurd rfl h2
  | ZodLiteral v => rfl
  | ZodString => rfl
  | ZodNumber => rfl
  | ZodBoolean => rfl
  | ZodObject shape => rfl

/-! ### Unfolding lemmas for `Registry.register` -/

theorem truthy_ne_undef {v : LitVal} (h : truthy v = true) : v ≠ .undef := by
  intro he
  subst he
  simp [truthy] at h

theorem hasValidDiscriminator_true {schema : ZodShape} {v : LitVal}
    (hty : lookupAssoc "type" schema = some (.ZodLiteral v))
    (htr : truthy v = true) : hasValidDiscriminator schema = true := by
  simp [hasValidDiscriminator, hty, typeName, htr]

theorem register_eq_of_valid (r : Registry) (schema : ZodShape)
    (lb : List SchemaFilter) {v : LitVal}
    (hty : lookupAssoc "type" schema = some (.ZodLiteral v))
    (htr : truthy v = true) :
    r.register schema lb false =
      ({ r with
          original := ⟨insertAssoc (toKeyString v) schema r.original.entries⟩,
          llm := ⟨insertAssoc (toKeyString v)
              (applyFilter schema (r.globalBlacklist ++ lb)) r.llm.entries⟩ },
        none) := by
  have hund : ¬ v = .undef := truthy_ne_undef htr
  have htyA : lookupAssoc "type" (applyFilter schema (r.globalBlacklist ++ lb))
      = some (.ZodLiteral v) := by
    rw [lookupAssoc_type_applyFilter, hty]
  simp [Registry.register, hasValidDiscriminator_true hty htr,
    SchemaRepo.add, hty, htyA, hund]

theorem register_ignore_eq_of_valid (r : Registry) (schema : ZodShape)
    (lb : List SchemaFilter) {v : LitVal}
    (hty : lookupAssoc "type" schema = some (.ZodLiteral v))
    (htr : truthy v = true) :
    r.register schema lb true =
      ({ r with
          original := ⟨insertAssoc (toKeyString v) schema r.original.entries⟩ },
        none) := by
  have hund : ¬ v = .undef := truthy_ne_undef htr
  simp [Registry.register, hasValidDiscriminator_true hty htr,
    SchemaRepo.add, hty, hund]

theorem register_eq_of_invalid (r : Registry) (schema : ZodShape)
    (lb : List SchemaFilter) (ig : Bool)
    (h : hasValidDiscriminator schema = false) :
    r.register schema lb ig = (r, some .MissingDiscriminator) := by
  simp [Registry.register, h]

theorem mem_applyFilter_of_surviving {schema : ZodShape}
    {preds : List SchemaFilter} {k : String} {fv : ZodType}
    (hmem : (k, fv) ∈ schema) (hk : k ≠ "type")
    (hflag : preds.any (fun f => f k fv) = false) :
    (k, removeDefaultsAndOptionals fv) ∈ applyFilter schema preds := by
  unfold applyFilter
  apply List.mem_append_left
  apply List.mem_map.mpr
  refine ⟨(k, fv), List.mem_filter.mpr ⟨List.mem_filter.mpr ⟨hmem, ?_⟩, ?_⟩, rfl⟩
  · simpa using hk
  · simpa using hflag

theorem not_mem_keys_applyFilter_of_flagged {schema : ZodShape}
    {preds : List SchemaFilter} {k : String} {fv : ZodType}
    (hnd : (schema.map Prod.fst).Nodup)
    (hmem : (k, fv) ∈ schema) (hk : k ≠ "type")
    (hflag : preds.any (fun f => f k fv) = true) :
    k ∉ (applyFilter schema preds).map Prod.fst := by
  intro hkmem
  unfold applyFilter at hkmem
  rw [List.map_append] at hkmem
  rcases List.mem_append.mp hkmem with h | h
  · simp only [List.map_map, List.mem_map, Function.comp] at h
    obtain ⟨⟨qk, qv⟩, hq, he⟩ := h
    simp only at he
    subst he
    rcases List.mem_filter.mp hq with ⟨hq1, hq2⟩
    rcases List.mem_filter.mp hq1 with ⟨hq3, _⟩
    have hv : qv = fv := assoc_value_eq_of_nodup hnd hq3 hmem
    subst hv
    simp [hflag] at hq2
  · simp only [List.mem_map] at h
    obtain ⟨q, hq, he⟩ := h
    rcases List.mem_filter.mp hq with ⟨_, hq2⟩
    apply hk
    rw [← he]
    simpa using hq2

theorem mem_keys_applyFilter_nil {schema : ZodShape} {k : String} {fv : ZodType}
    (hmem : (k, fv) ∈ schema) :
    k ∈ (applyFilter schema []).map Prod.fst := by
  by_cases hk : k = "type"
  · subst hk
    apply List.mem_map.mpr
    refine ⟨("type", fv), ?_, rfl⟩
    unfold applyFilter
    exact List.mem_append_right _ (List.mem_filter.mpr ⟨hmem, by simp⟩)
  · exact List.mem_map.mpr
      ⟨(k, removeDefaultsAndOptionals fv),
        mem_applyFilter_of_surviving hmem hk (by simp), rfl⟩

/-! ### Claim theorems -/

/-- C1: for every schema registered with effective predicate list
`globalBlacklist ++ localBlacklist`, the schema stored in the llm repo is
exactly `applyFilter schema (globalBlacklist ++ localBlacklist)`; that
derived shape omits every non-discriminator field flagged by at least one
predicate, retains (with its wrappers stripped) every non-discriminator
field flagged by no predicate, and with an empty predicate list every
original field survives into the derived shape. -/
theorem registered_llm_filter_semantics
    (r : Registry) (schema : ZodShape) (lb : List SchemaFilter) (v : LitVal)
    (hnd : (schema.map Prod.fst).Nodup)
    (hty : lookupAssoc "type" schema = some (.ZodLiteral v))
    (htr : truthy v = true) :
    ((r.register schema lb false).2 = none ∧
      ((r.register schema lb false).1).llm.factory (toKeyString v)
        = some (applyFilter schema (r.globalBlacklist ++ lb))) ∧
    (∀ k fv, (k, fv) ∈ schema → k ≠ "type" →
      (r.globalBlacklist ++ lb).any (fun f => f k fv) = true →
      k ∉ (applyFilter schema (r.globalBlacklist ++ lb)).map Prod.fst) ∧
    (∀ k fv, (k, fv) ∈ schema → k ≠ "type" →
      (r.globalBlacklist ++ lb).any (fun f => f k fv) = false →
      (k, removeDefaultsAndOptionals fv) ∈
        applyFilter schema (r.globalBlacklist ++ lb)) ∧
    (∀ k fv, (k, fv) ∈ schema → k ∈ (applyFilter schema []).map Prod.fst) := by
  refine ⟨⟨?_, ?_⟩, ?_, ?_, ?_⟩
  · rw [register_eq_of_valid r schema lb hty htr]
  · rw [register_eq_of_valid r schema lb hty htr]
    simp [SchemaRepo.factory, lookupAssoc_insertAssoc_self]
  · exact fun k fv hm hk hf => not_mem_keys_applyFilter_of_flagged hnd hm hk hf
  · exact fun k fv hm hk hf => mem_applyFilter_of_surviving hm hk hf
  · exact fun k fv hm => mem_keys_applyFilter_nil hm

theorem registered_llm_filter_semantics_witness :
    "age" ∉ (applyFilter
        [("type", ZodType.ZodLiteral (.str "user")), ("age", ZodType.ZodNumber)]
        ((createRegistry [fun k _ => k == "age"]).globalBlacklist ++ [])).map
        Prod.fst := by
  have h := registered_llm_filter_semantics
    (createRegistry [fun k _ => k == "age"])
    [("type", ZodType.ZodLiteral (.str "user")), ("age", ZodType.ZodNumber)]
    [] (.str "user") (by decide) (by rfl) (by rfl)
  exact h.2.1 "age" .ZodNumber (List.Mem.tail _ (List.Mem.head _))
    (by decide) (by rfl)

/-- C2: a schema registered without `ignoreLLM` always yields an llm-repo
entry (under its discriminator key) that still contains a `type` field
whose literal value equals the original discriminator value, whatever the
filter set — including one whose predicates flag every field. -/
theorem discriminator_never_filtered
    (r : Registry) (schema : ZodShape) (lb : List SchemaFilter) (v : LitVal)
    (hty : lookupAssoc "type" schema = some (.ZodLiteral v))
    (htr : truthy v = true) :
    (r.register schema lb false).2 = none ∧
    ∃ derived,
      ((r.register schema lb false).1).llm.factory (toKeyString v)
        = some derived ∧
      lookupAssoc "type" derived = some (.ZodLiteral v) := by
  refine ⟨by rw [register_eq_of_valid r schema lb hty htr],
    ⟨applyFilter schema (r.globalBlacklist ++ lb), ?_, ?_⟩⟩
  · rw [register_eq_of_valid r schema lb hty htr]
    simp [SchemaRepo.factory, lookupAssoc_insertAssoc_self]
  · rw [lookupAssoc_type_applyFilter, hty]

theorem discriminator_never_filtered_witness :
    (((createRegistry [fun _ _ => true]).register
        [("type", ZodType.ZodLiteral (.str "user")), ("id", ZodType.ZodString)]
        [] false).2 = none) ∧
    ∃ derived,
      (((createRegistry [fun _ _ => true]).register
          [("type", ZodType.ZodLiteral (.str "user")),
            ("id", ZodType.ZodString)] [] false).1).llm.factory
          (toKeyString (.str "user")) = some derived ∧
      lookupAssoc "type" derived = some (.ZodLiteral (.str "user")) :=
  discriminator_never_filtered (createRegistry [fun _ _ => true])
    [("type", ZodType.ZodLiteral (.str "user")), ("id", ZodType.ZodString)]
    [] (.str "user") (by rfl) (by rfl)

/-- C3 counterexample: discriminator keys `"10"` then `"2"` (both
reachable through `register`) are integer-like, so `Object.keys` yields
them in ascending numeric order `["2", "10"]` — not in the insertion
order `["10", "2"]` the claim asserts — while both `union` and `enum`
succeed. -/
theorem enum_insertion_order_counterexample :
    ((((createRegistry []).register [("type", ZodType.ZodLiteral (.str "10"))]
          [] false).1.register [("type", ZodType.ZodLiteral (.str "2"))]
        [] false).2 = none) ∧
    ((((createRegistry []).register [("type", ZodType.ZodLiteral (.str "10"))]
          [] false).1.register [("type", ZodType.ZodLiteral (.str "2"))]
        [] false).1.original.entries.map Prod.fst = ["10", "2"]) ∧
    ((((createRegistry []).register [("type", ZodType.ZodLiteral (.str "10"))]
          [] false).1.register [("type", ZodType.ZodLiteral (.str "2"))]
        [] false).1.original.enum = .ok ["2", "10"]) ∧
    (["2", "10"] : List String) ≠ ["10", "2"] :=
  ⟨rfl, rfl, rfl, by decide⟩

/-- C3 (amended): on every repository, `enum` and `union` raise
`InsufficientSchemas` exactly when fewer than 2 entries are stored; with 2
or more entries both succeed without raising, `enum` returning the stored
discriminator keys and `union` the discriminated variants, each in the
record's own-property order (array-index keys ascending numerically
first, then the remaining keys in insertion order) — which is plain
insertion order whenever no stored key is integer-like. -/
theorem union_enum_min_arity (repo : SchemaRepo) :
    (repo.entries.length < 2 →
      repo.enum = .error .InsufficientSchemas ∧
      repo.union = .error .InsufficientSchemas) ∧
    (2 ≤ repo.entries.length →
      repo.enum = .ok ((jsOwnKeysOrder repo.entries).map Prod.fst) ∧
      repo.union = .ok ((jsOwnKeysOrder repo.entries).map Prod.snd)) ∧
    ((∀ p ∈ repo.entries, isArrayIndexKey p.1 = false) →
      jsOwnKeysOrder repo.entries = repo.entries) := by
  refine ⟨?_, ?_, fun h => jsOwnKeysOrder_eq_self h⟩
  · intro h
    constructor <;>
      simp [SchemaRepo.enum, SchemaRepo.union, List.length_map,
        length_jsOwnKeysOrder, h]
  · intro h
    constructor <;>
      simp [SchemaRepo.enum, SchemaRepo.union, List.length_map,
        length_jsOwnKeysOrder, Nat.not_lt.mpr h]

theorem union_enum_min_arity_witness :
    (SchemaRepo.mk []).enum = .error .InsufficientSchemas ∧
    (SchemaRepo.mk
        [("a", [("type", ZodType.ZodLiteral (.str "a"))])]).union
      = .error .InsufficientSchemas ∧
    (SchemaRepo.mk
        [("a", [("type", ZodType.ZodLiteral (.str "a"))]),
          ("b", [("type", ZodType.ZodLiteral (.str "b"))])]).enum
      = .ok ["a", "b"] ∧
    (SchemaRepo.mk
        [("a", [("type", ZodType.ZodLiteral (.str "a"))]),
          ("b", [("type", ZodType.ZodLiteral (.str "b"))])]).union
      = .ok [[("type", ZodType.ZodLiteral (.str "a"))],
          [("type", ZodType.ZodLiteral (.str "b"))]] ∧
    jsOwnKeysOrder (SchemaRepo.mk
        [("a", [("type", ZodType.ZodLiteral (.str "a"))]),
          ("b", [("type", ZodType.ZodLiteral (.str "b"))])]).entries
      = [("a", [("type", ZodType.ZodLiteral (.str "a"))]),
          ("b", [("type", ZodType.ZodLiteral (.str "b"))])] :=
  ⟨((union_enum_min_arity (SchemaRepo.mk [])).1 (by decide)).1,
    ((union_enum_min_arity _).1 (by decide)).2,
    ((union_enum_min_arity _).2.1 (by decide)).1,
    ((union_enum_min_arity _).2.1 (by decide)).2,
    (union_enum_min_arity _).2.2 (by decide)⟩

/-- C4: registration on a schema whose `type` field is absent, is not a
literal-kind field, or is a literal whose value is `undefined` or the
empty string, fails with `MissingDiscriminator` and returns the registry
completely unchanged (no entry added to either repository). -/
theorem register_missing_discriminator
    (r : Registry) (schema : ZodShape) (lb : List SchemaFilter) (ig : Bool)
    (hbad : lookupAssoc "type" schema = none ∨
      (∃ t, lookupAssoc "type" schema = some t ∧ typeName t ≠ "ZodLiteral") ∨
      lookupAssoc "type" schema = some (.ZodLiteral .undef) ∨
      lookupAssoc "type" schema = some (.ZodLiteral (.str ""))) :
    r.register schema lb ig = (r, some .MissingDiscriminator) := by
  apply register_eq_of_invalid
  rcases hbad with h | ⟨t, ht, hn⟩ | h | h
  · simp [hasValidDiscriminator, h]
  · cases t <;> simp_all [hasValidDiscriminator, typeName]
  · simp [hasValidDiscriminator, h, truthy]
  · simp [hasValidDiscriminator, h, truthy]

theorem register_missing_discriminator_witness :
    (createRegistry []).register [("id", ZodType.ZodString)] [] false
      = (createRegistry [], some .MissingDiscriminator) :=
  register_missing_discriminator (createRegistry []) [("id", ZodType.ZodString)]
    [] false (Or.inl (by rfl))

/-- C10: `register` tests the discriminator literal for JavaScript
truthiness only: every falsy literal value (such as `literal(0)`,
`literal(false)` or `literal("")`) is rejected with
`MissingDiscriminator`, while every truthy value — string or not —
succeeds, the entry being keyed by the string coercion of the value. -/
theorem register_discriminator_truthiness
    (r : Registry) (schema : ZodShape) (lb : List SchemaFilter) (v : LitVal)
    (hty : lookupAssoc "type" schema = some (.ZodLiteral v)) :
    (truthy v = false →
      r.register schema lb false = (r, some .MissingDiscriminator)) ∧
    (truthy v = true →
      (r.register schema lb false).2 = none ∧
      (r.register schema lb false).1.original.factory (toKeyString v)
        = some schema) := by
  constructor
  · intro hf
    apply register_eq_of_invalid
    simp [hasValidDiscriminator, hty, typeName, hf]
  · intro ht
    rw [register_eq_of_valid r schema lb hty ht]
    exact ⟨rfl, by simp [SchemaRepo.factory, lookupAssoc_insertAssoc_self]⟩

theorem register_discriminator_truthiness_witness :
    ((createRegistry []).register [("type", ZodType.ZodLiteral (.num 0))]
        [] false = (createRegistry [], some .MissingDiscriminator)) ∧
    ((createRegistry []).register [("type", ZodType.ZodLiteral (.num 5))]
        [] false).1.original.factory "5"
      = some [("type", ZodType.ZodLiteral (.num 5))] := by
  constructor
  · exact (register_discriminator_truthiness (createRegistry [])
      [("type", ZodType.ZodLiteral (.num 0))] [] (.num 0) (by rfl)).1 (by rfl)
  · exact ((register_discriminator_truthiness (createRegistry [])
      [("type", ZodType.ZodLiteral (.num 5))] [] (.num 5) (by rfl)).2
      (by rfl)).2

/-- C5: two successive successful registrations (without `ignoreLLM`)
carrying the same discriminator key leave exactly one entry under that key
in each repository; `factory` of that key returns the second schema in the
original repo and its filtered derivative in the llm repo, and entries for
every other key are untouched. -/
theorem register_same_discriminator_overwrites
    (r : Registry) (s1 s2 : ZodShape) (lb1 lb2 : List SchemaFilter)
    (v1 v2 : LitVal)
    (hty1 : lookupAssoc "type" s1 = some (.ZodLiteral v1))
    (htr1 : truthy v1 = true)
    (hty2 : lookupAssoc "type" s2 = some (.ZodLiteral v2))
    (htr2 : truthy v2 = true)
    (hkey : toKeyString v1 = toKeyString v2)
    (hndO : (r.original.entries.map Prod.fst).Nodup)
    (hndL : (r.llm.entries.map Prod.fst).Nodup) :
    (r.register s1 lb1 false).2 = none ∧
    (((r.register s1 lb1 false).1).register s2 lb2 false).2 = none ∧
    (((((r.register s1 lb1 false).1).register s2 lb2 false).1).original.entries.map
        Prod.fst).count (toKeyString v2) = 1 ∧
    (((((r.register s1 lb1 false).1).register s2 lb2 false).1).llm.entries.map
        Prod.fst).count (toKeyString v2) = 1 ∧
    ((((r.register s1 lb1 false).1).register s2 lb2 false).1).original.factory
        (toKeyString v2) = some s2 ∧
    ((((r.register s1 lb1 false).1).register s2 lb2 false).1).llm.factory
        (toKeyString v2) = some (applyFilter s2 (r.globalBlacklist ++ lb2)) ∧
    (∀ k, k ≠ toKeyString v2 →
      ((((r.register s1 lb1 false).1).register s2 lb2 false).1).original.factory k
        = r.original.factory k ∧
      ((((r.register s1 lb1 false).1).register s2 lb2 false).1).llm.factory k
        = r.llm.factory k) := by
  have e1 := register_eq_of_valid r s1 lb1 hty1 htr1
  have e2 := register_eq_of_valid (r.register s1 lb1 false).1 s2 lb2 hty2 htr2
  simp only [e1] at e2
  simp only [e1, e2, SchemaRepo.factory]
  rw [hkey]
  refine ⟨trivial, trivial, ?_, ?_, ?_, ?_, fun k hk => ⟨?_, ?_⟩⟩
  · exact count_keys_insertAssoc (nodup_keys_insertAssoc hndO)
  · exact count_keys_insertAssoc (nodup_keys_insertAssoc hndL)
  · exact lookupAssoc_insertAssoc_self _ _ _
  · exact lookupAssoc_insertAssoc_self _ _ _
  · rw [lookupAssoc_insertAssoc_ne _ _ hk, lookupAssoc_insertAssoc_ne _ _ hk]
  · rw [lookupAssoc_insertAssoc_ne _ _ hk, lookupAssoc_insertAssoc_ne _ _ hk]

theorem register_same_discriminator_overwrites_witness :
    ((((createRegistry []).register
          [("type", ZodType.ZodLiteral (.str "user")), ("a", ZodType.ZodString)]
          [] false).1.register
        [("type", ZodType.ZodLiteral (.str "user")), ("b", ZodType.ZodString)]
        [] false).1.original.factory "user"
      = some [("type", ZodType.ZodLiteral (.str "user")),
          ("b", ZodType.ZodString)]) ∧
    (((((createRegistry []).register
          [("type", ZodType.ZodLiteral (.str "user")), ("a", ZodType.ZodString)]
          [] false).1.register
        [("type", ZodType.ZodLiteral (.str "user")), ("b", ZodType.ZodString)]
        [] false).1.original.entries.map Prod.fst).count "user" = 1) := by
  have h := register_same_discriminator_overwrites (createRegistry [])
    [("type", ZodType.ZodLiteral (.str "user")), ("a", ZodType.ZodString)]
    [("type", ZodType.ZodLiteral (.str "user")), ("b", ZodType.ZodString)]
    [] [] (.str "user") (.str "user") (by rfl) (by rfl) (by rfl) (by rfl)
    (by rfl) (by decide) (by decide)
  exact ⟨h.2.2.2.2.1, h.2.2.1⟩

/-- C6 counterexample: from a state built by a registration that used
`ignoreLLM`, a later successful registration without `ignoreLLM` leaves
the two repositories with different entry counts, refuting the
unconditional length equality. -/
theorem dual_write_length_counterexample :
    ((((createRegistry []).register [("type", ZodType.ZodLiteral (.str "a"))]
          [] true).1.register [("type", ZodType.ZodLiteral (.str "b"))]
        [] false).2 = none) ∧
    ((((createRegistry []).register [("type", ZodType.ZodLiteral (.str "a"))]
          [] true).1.register [("type", ZodType.ZodLiteral (.str "b"))]
        [] false).1.original.schemas.length = 2) ∧
    ((((createRegistry []).register [("type", ZodType.ZodLiteral (.str "a"))]
          [] true).1.register [("type", ZodType.ZodLiteral (.str "b"))]
        [] false).1.llm.schemas.length = 1) :=
  ⟨rfl, rfl, rfl⟩

/-- C6 (amended): after every successful `register` without `ignoreLLM`,
`original.factory(tag)` and `llm.factory(tag)` are both defined; and
provided the two repositories held the same key sequence before the call
(as is the case when no earlier registration used `ignoreLLM`), they hold
the same number of entries afterwards. -/
theorem dual_write_invariant
    (r : Registry) (schema : ZodShape) (lb : List SchemaFilter) (v : LitVal)
    (hty : lookupAssoc "type" schema = some (.ZodLiteral v))
    (htr : truthy v = true) :
    (r.register schema lb false).2 = none ∧
    ((r.register schema lb false).1.original.factory (toKeyString v)).isSome
      = true ∧
    ((r.register schema lb false).1.llm.factory (toKeyString v)).isSome
      = true ∧
    (r.original.entries.map Prod.fst = r.llm.entries.map Prod.fst →
      (r.register schema lb false).1.original.schemas.length
        = (r.register schema lb false).1.llm.schemas.length) := by
  rw [register_eq_of_valid r schema lb hty htr]
  refine ⟨rfl, ?_, ?_, ?_⟩
  · simp [SchemaRepo.factory, lookupAssoc_insertAssoc_self]
  · simp [SchemaRepo.factory, lookupAssoc_insertAssoc_self]
  · intro hkeys
    have hlen : r.original.entries.length = r.llm.entries.length := by
      have h2 := congrArg List.length hkeys
      simpa using h2
    simp only [SchemaRepo.schemas, List.length_map, length_jsOwnKeysOrder,
      length_insertAssoc, hlen]
    by_cases hm : toKeyString v ∈ r.llm.entries.map Prod.fst
    · rw [if_pos (by rw [hkeys]; exact hm), if_pos hm]
    · rw [if_neg (by rw [hkeys]; exact hm), if_neg hm]

theorem dual_write_invariant_witness :
    (((createRegistry []).register
        [("type", ZodType.ZodLiteral (.str "user")), ("id", ZodType.ZodString)]
        [] false).1.original.factory "user").isSome = true ∧
    (((createRegistry []).register
        [("type", ZodType.ZodLiteral (.str "user")), ("id", ZodType.ZodString)]
        [] false).1.original.schemas.length
      = ((createRegistry []).register
        [("type", ZodType.ZodLiteral (.str "user")), ("id", ZodType.ZodString)]
        [] false).1.llm.schemas.length) := by
  have h := dual_write_invariant (createRegistry [])
    [("type", ZodType.ZodLiteral (.str "user")), ("id", ZodType.ZodString)]
    [] (.str "user") (by rfl) (by rfl)
  exact ⟨h.2.1, h.2.2.2 (by rfl)⟩

/-- C7 counterexample: registering a schema holding a nested object field
wrapped in `optional`, whose inner field carries a `default`, yields an
llm entry in which the outer optional is gone but the nested default
wrapper survives — the derived schema is not free of optional/default
wrapping everywhere. -/
theorem llm_nested_wrapping_counterexample :
    ((((createRegistry []).register
        [("type", ZodType.ZodLiteral (.str "user")),
          ("settings", ZodType.ZodOptional (ZodType.ZodObject
            [("theme", ZodType.ZodDefault ZodType.ZodString)]))]
        [] false).2) = none) ∧
    (((createRegistry []).register
        [("type", ZodType.ZodLiteral (.str "user")),
          ("settings", ZodType.ZodOptional (ZodType.ZodObject
            [("theme", ZodType.ZodDefault ZodType.ZodString)]))]
        [] false).1.llm.factory "user"
      = some [("settings", ZodType.ZodObject
            [("theme", ZodType.ZodDefault ZodType.ZodString)]),
          ("type", ZodType.ZodLiteral (.str "user"))]) ∧
    shapeHasOptionalOrDefault
        [("settings", ZodType.ZodObject
            [("theme", ZodType.ZodDefault ZodType.ZodString)]),
          ("type", ZodType.ZodLiteral (.str "user"))] = true :=
  ⟨rfl, rfl, rfl⟩

/-- C7 (amended): for every surviving non-discriminator field the filter
pipeline fully unwraps the chain of optional/default wrappers at the top
of the field schema (each unwrap step removes one wrapper, an unwrapped
head is left unchanged, and the result of a surviving field never has an
optional or default head); the stripping does not descend into nested
schemas. -/
theorem strip_top_level_chain
    (t : ZodType) (schema : ZodShape) (preds : List SchemaFilter)
    (p : String × ZodType) (hp : p ∈ applyFilter schema preds)
    (hne : p.1 ≠ "type") :
    removeDefaultsAndOptionals (.ZodOptional t) = removeDefaultsAndOptionals t ∧
    removeDefaultsAndOptionals (.ZodDefault t) = removeDefaultsAndOptionals t ∧
    (typeName t ≠ "ZodOptional" → typeName t ≠ "ZodDefault" →
      removeDefaultsAndOptionals t = t) ∧
    typeName p.2 ≠ "ZodOptional" ∧ typeName p.2 ≠ "ZodDefault" := by
  refine ⟨rfl, rfl, fun h1 h2 => removeDefaultsAndOptionals_eq_self h1 h2, ?_⟩
  unfold applyFilter at hp
  rcases List.mem_append.mp hp with h | h
  · obtain ⟨q, _, he⟩ := List.mem_map.mp h
    subst he
    exact removeDefaultsAndOptionals_not_wrapped q.2
  · rcases List.mem_filter.mp h with ⟨_, hq2⟩
    exact absurd (by simpa using hq2) hne

theorem strip_top_level_chain_witness :
    removeDefaultsAndOptionals
        (.ZodOptional (.ZodDefault ZodType.ZodString))
      = removeDefaultsAndOptionals (.ZodDefault ZodType.ZodString) ∧
    typeName (("a", ZodType.ZodString) : String × ZodType).2
      ≠ "ZodOptional" := by
  have h := strip_top_level_chain (.ZodDefault ZodType.ZodString)
    [("type", ZodType.ZodLiteral (.str "u")),
      ("a", ZodType.ZodOptional ZodType.ZodString)]
    [] ("a", ZodType.ZodString) (List.Mem.head _) (by decide)
  exact ⟨h.1, h.2.2.2.1⟩

/-- C8: `removeDefaultsAndOptionals` is idempotent — applied to its own
output it returns the output unchanged. -/
theorem removeDefaultsAndOptionals_idempotent (t : ZodType) :
    removeDefaultsAndOptionals (removeDefaultsAndOptionals t)
      = removeDefaultsAndOptionals t :=
  removeDefaultsAndOptionals_eq_self
    (removeDefaultsAndOptionals_not_wrapped t).1
    (removeDefaultsAndOptionals_not_wrapped t).2

/-! ### Heap lemmas for the `schemas` snapshot claim -/

theorem listGetOpt_append_self {α : Type} (a b : List α) :
    listGetOpt (a ++ b) a.length = listGetOpt b 0 := by
  induction a with
  | nil => rfl
  | cons x rest ih => simpa [listGetOpt] using ih

theorem listGetOpt_set_ne {α : Type} (l : List α) (i j : Nat) (x : α)
    (hij : i ≠ j) : listGetOpt (l.set i x) j = listGetOpt l j := by
  induction l generalizing i j with
  | nil => simp [List.set]
  | cons y rest ih =>
    cases i with
    | zero =>
      cases j with
      | zero => exact absurd rfl hij
      | succ j2 => simp [List.set, listGetOpt]
    | succ i2 =>
      cases j with
      | zero => simp [List.set, listGetOpt]
      | succ j2 =>
        simpa [List.set, listGetOpt] using ih i2 j2 fun h => hij (by rw [h])

theorem heapGet_two_appends (A : List (List ZodShape)) (V W : List ZodShape) :
    Heap.get ⟨(A ++ [V]) ++ [W]⟩ A.length = V ∧
    Heap.get ⟨(A ++ [V]) ++ [W]⟩ (A.length + 1) = W := by
  constructor
  · rw [Heap.get]
    rw [show (A ++ [V]) ++ [W] = A ++ ([V] ++ [W]) from List.append_assoc A [V] [W]]
    rw [listGetOpt_append_self]
    rfl
  · rw [Heap.get]
    rw [show A.length + 1 = (A ++ [V]).length by simp]
    rw [listGetOpt_append_self]
    rfl

/-- C9 counterexample: with reachable discriminator keys `"10"` then
`"2"`, the `schemas` getter (`Object.values`) returns the stored shapes
with the integer-like keys reordered numerically — not the insertion
order of the store asserted by the claim. -/
theorem schemas_insertion_order_counterexample :
    ((((createRegistry []).register [("type", ZodType.ZodLiteral (.str "10"))]
          [] false).1.register [("type", ZodType.ZodLiteral (.str "2"))]
        [] false).1.original.schemas
      = [[("type", ZodType.ZodLiteral (.str "2"))],
          [("type", ZodType.ZodLiteral (.str "10"))]]) ∧
    ((((createRegistry []).register [("type", ZodType.ZodLiteral (.str "10"))]
          [] false).1.register [("type", ZodType.ZodLiteral (.str "2"))]
        [] false).1.original.entries.map Prod.snd
      = [[("type", ZodType.ZodLiteral (.str "10"))],
          [("type", ZodType.ZodLiteral (.str "2"))]]) ∧
    ([[("type", ZodType.ZodLiteral (.str "2"))],
        [("type", ZodType.ZodLiteral (.str "10"))]] : List ZodShape)
      ≠ [[("type", ZodType.ZodLiteral (.str "10"))],
          [("type", ZodType.ZodLiteral (.str "2"))]] := by
  refine ⟨rfl, rfl, fun h => ?_⟩
  simp at h

/-- C9 (amended): reading the `schemas` getter twice leaves the
repository unchanged, allocates two distinct array instances with equal
contents (the stored schemas in the record's own-property order —
array-index keys ascending numerically first, then the remaining keys in
insertion order), and overwriting either returned array changes neither
the contents read through the other address nor the repository value. -/
theorem schemas_defensive_copy (repo : SchemaRepo) (h : Heap) :
    (repo.schemasRead h).1 = repo ∧
    ((repo.schemasRead h).1.schemasRead (repo.schemasRead h).2.2).1 = repo ∧
    (repo.schemasRead h).2.1
      ≠ (repo.schemasRead (repo.schemasRead h).2.2).2.1 ∧
    (repo.schemasRead (repo.schemasRead h).2.2).2.2.get
        (repo.schemasRead h).2.1 = repo.schemas ∧
    (repo.schemasRead (repo.schemasRead h).2.2).2.2.get
        (repo.schemasRead (repo.schemasRead h).2.2).2.1 = repo.schemas ∧
    (∀ xs,
      ((repo.schemasRead (repo.schemasRead h).2.2).2.2.set
            (repo.schemasRead h).2.1 xs).get
          (repo.schemasRead (repo.schemasRead h).2.2).2.1 = repo.schemas ∧
      ((repo.schemasRead (repo.schemasRead h).2.2).2.2.set
            (repo.schemasRead (repo.schemasRead h).2.2).2.1 xs).get
          (repo.schemasRead h).2.1 = repo.schemas) := by
  simp only [SchemaRepo.schemasRead]
  refine ⟨trivial, trivial, by simp, ?_, ?_, fun xs => ⟨?_, ?_⟩⟩
  · exact (heapGet_two_appends h.arrays repo.schemas repo.schemas).1
  · simpa using (heapGet_two_appends h.arrays repo.schemas repo.schemas).2
  · rw [Heap.set, Heap.get]
    simp only [List.length_append, List.length_singleton]
    rw [listGetOpt_set_ne _ _ _ _ (by omega)]
    have h2 := (heapGet_two_appends h.arrays repo.schemas repo.schemas).2
    rw [Heap.get] at h2
    exact h2
  · rw [Heap.set, Heap.get]
    simp only [List.length_append, List.length_singleton]
    rw [listGetOpt_set_ne _ _ _ _ (by omega)]
    have h1 := (heapGet_two_appends h.arrays repo.schemas repo.schemas).1
    rw [Heap.get] at h1
    exact h1

end Hobsons
